import Mathlib

set_option maxRecDepth 100000

/-!
Shallow embedding of the SHA-256 implementation in `src/main.cpp` of the
repository polkadot21/sha256, together with specification-side definitions
used to check the natural-language specification against the code.

Machine integers (`uint32_t`) are modelled as `Nat` with explicit `% 2 ^ 32`
wherever the C code's arithmetic wraps.  The `uint8_t` bytes of the input are
`Nat` values below 256.  The `std::array<uint32_t, 16> block` local variable
of `main` is declared without an initializer, so its initial word values are
indeterminate; the embedding makes that explicit as a `junk : Nat → Nat`
parameter giving the initial content of each word.
-/

namespace Sha256

/-- `Ch` from src/main.cpp line 80: `(x & y) ^ (~x & z)`.
`~x` on a `uint32_t` value `x < 2 ^ 32` is XOR with the all-ones 32-bit mask. -/
def Ch (x y z : Nat) : Nat := (x &&& y) ^^^ ((x ^^^ 0xffffffff) &&& z)

/-- `Maj` from src/main.cpp line 81: `(x & y) ^ (x & z) ^ (y & z)`. -/
def Maj (x y z : Nat) : Nat := (x &&& y) ^^^ (x &&& z) ^^^ (y &&& z)

/-- `SHR` from src/main.cpp line 82: `x >> n`. -/
def SHR (x n : Nat) : Nat := x >>> n

/-- `ROTR` from src/main.cpp line 83: `(x >> n) | (x << (32 - n))`, where the
left shift of a `uint32_t` wraps modulo `2 ^ 32`. -/
def ROTR (x n : Nat) : Nat := (x >>> n) ||| ((x <<< (32 - n)) % 2 ^ 32)

/-- `Sigma0` from src/main.cpp line 84. -/
def Sigma0 (x : Nat) : Nat := ROTR x 2 ^^^ ROTR x 13 ^^^ ROTR x 22

/-- `Sigma1` from src/main.cpp line 85. -/
def Sigma1 (x : Nat) : Nat := ROTR x 6 ^^^ ROTR x 11 ^^^ ROTR x 25

/-- `sigma0` from src/main.cpp line 86. -/
def sigma0 (x : Nat) : Nat := ROTR x 7 ^^^ ROTR x 18 ^^^ SHR x 3

/-- `sigma1` from src/main.cpp line 87. -/
def sigma1 (x : Nat) : Nat := ROTR x 17 ^^^ ROTR x 19 ^^^ SHR x 10

/-- The 64-entry round-constant table `K` from src/main.cpp lines 67-76,
written as its eight rows. -/
def K : List Nat :=
  [0x428a2f98, 0x71374491, 0xb5c0fbcf, 0xe9b5dba5, 0x3956c25b, 0x59f111f1, 0x923f82a4, 0xab1c5ed5]
    ++ [0xd807aa98, 0x12835b01, 0x243185be, 0x550c7dc3, 0x72be5d74, 0x80deb1fe, 0x9bdc06a7, 0xc19bf174]
    ++ [0xe49b69c1, 0xefbe4786, 0x0fc19dc6, 0x240ca1cc, 0x2de92c6f, 0x4a7484aa, 0x5cb0a9dc, 0x76f988da]
    ++ [0x983e5152, 0xa831c66d, 0xb00327c8, 0xbf597fc7, 0xc6e00bf3, 0xd5a79147, 0x06ca6351, 0x14292967]
    ++ [0x27b70a85, 0x2e1b2138, 0x4d2c6dfc, 0x53380d13, 0x650a7354, 0x766a0abb, 0x81c2c92e, 0x92722c85]
    ++ [0xa2bfe8a1, 0xa81a664b, 0xc24b8b70, 0xc76c51a3, 0xd192e819, 0xd6990624, 0xf40e3585, 0x106aa070]
    ++ [0x19a4c116, 0x1e376c08, 0x2748774c, 0x34b0bcb5, 0x391c0cb3, 0x4ed8aa4a, 0x5b9cca4f, 0x682e6ff3]
    ++ [0x748f82ee, 0x78a5636f, 0x84c87814, 0x8cc70208, 0x90befffa, 0xa4506ceb, 0xbef9a3f7, 0xc67178f2]

/-- One iteration of the schedule-extension loop at src/main.cpp lines 97-98:
the word the loop writes at index `t = W.length`, namely
`sigma1(W[t-2]) + W[t-7] + sigma0(W[t-15]) + W[t-16]` with each `uint32_t`
addition wrapping modulo `2 ^ 32` (C `+` is left-associative). -/
def nextW (W : List Nat) : Nat :=
  (((sigma1 (W.getD (W.length - 2) 0) + W.getD (W.length - 7) 0) % 2 ^ 32
      + sigma0 (W.getD (W.length - 15) 0)) % 2 ^ 32
    + W.getD (W.length - 16) 0) % 2 ^ 32

/-- Running the loop of src/main.cpp lines 97-98 for `n` more iterations,
appending one scheduled word per iteration. -/
def extendW : List Nat → Nat → List Nat
  | W, 0 => W
  | W, n + 1 => extendW (W ++ [nextW W]) n

/-- The full 64-word message schedule of src/main.cpp lines 93-98: the block's
16 words followed by the 48 words of the extension loop. -/
def messageSchedule (block : List Nat) : List Nat := extendW block 48

/-- The eight 32-bit working variables `a..h` of `sha256_transform`
(also used for the eight-word hash state, src/main.cpp lines 100-107). -/
structure Words8 where
  a : Nat
  b : Nat
  c : Nat
  d : Nat
  e : Nat
  f : Nat
  g : Nat
  h : Nat
deriving DecidableEq, Repr

/-- One round of the main loop of src/main.cpp lines 110-122, on working
variables `v`, round constant `k` and schedule word `w`; every `uint32_t`
addition wraps modulo `2 ^ 32` (C `+` is left-associative). -/
def roundStep (v : Words8) (k w : Nat) : Words8 :=
  let T1 := ((((v.h + Sigma1 v.e) % 2 ^ 32 + Ch v.e v.f v.g) % 2 ^ 32 + k) % 2 ^ 32 + w) % 2 ^ 32
  let T2 := (Sigma0 v.a + Maj v.a v.b v.c) % 2 ^ 32
  { a := (T1 + T2) % 2 ^ 32, b := v.a, c := v.b, d := v.c,
    e := (v.d + T1) % 2 ^ 32, f := v.e, g := v.f, h := v.g }

/-- The 64-round main loop of src/main.cpp lines 110-122, over an arbitrary
schedule `Wf` (round `t` uses `K[t]` and `W[t]`). -/
def compress (Wf : Nat → Nat) (v : Words8) : Words8 :=
  (List.range 64).foldl (fun v t => roundStep v (K.getD t 0) (Wf t)) v

/-- The final accumulation step of src/main.cpp lines 125-132:
`state[i] += var` with `uint32_t` wraparound. -/
def accumulate (s v : Words8) : Words8 :=
  { a := (s.a + v.a) % 2 ^ 32, b := (s.b + v.b) % 2 ^ 32, c := (s.c + v.c) % 2 ^ 32,
    d := (s.d + v.d) % 2 ^ 32, e := (s.e + v.e) % 2 ^ 32, f := (s.f + v.f) % 2 ^ 32,
    g := (s.g + v.g) % 2 ^ 32, h := (s.h + v.h) % 2 ^ 32 }

/-- `sha256_transform` of src/main.cpp lines 91-133, factored through an
arbitrary schedule: copy the state into `a..h`, run the 64 rounds, then add
each working variable into the corresponding state word. -/
def transformWithSchedule (Wf : Nat → Nat) (state : Words8) : Words8 :=
  accumulate state (compress Wf state)

/-- `sha256_transform` of src/main.cpp lines 91-133: build the message
schedule `W` from the block, then run the rounds and the accumulation. -/
def sha256_transform (state : Words8) (block : List Nat) : Words8 :=
  transformWithSchedule (fun t => (messageSchedule block).getD t 0) state

/-- The memory effect of a call `sha256_transform(state, block)`: the function
receives `block` by `const` reference and writes only through `state&` (and
its locals), so the call maps the pair (state, block) to the new state paired
with the untouched block. -/
def sha256_transform_mem (state : Words8) (block : List Nat) : Words8 × List Nat :=
  (sha256_transform state block, block)

/-- The byte array built by `main` at src/main.cpp lines 149-158: 64 bytes,
all zero, the input copied to the front, and — only when the input is shorter
than 64 bytes — the byte `0x80` placed right after the input. -/
def padBytes (input : List Nat) : List Nat :=
  if input.length < 64 then input ++ 0x80 :: List.replicate (63 - input.length) 0
  else input

/-- Word `i` of the block built by `main` at src/main.cpp lines 161-166.
`std::array<uint32_t, 16> block;` is declared without an initializer, so word
`i` starts at the indeterminate value `junk i`; the loop then executes
`block[i] |= bytes[4*i+j] << (24 - 8*j)` for `j = 0..3`. -/
def assembleWord (junk : Nat → Nat) (bytes : List Nat) (i : Nat) : Nat :=
  (((junk i ||| bytes.getD (4 * i) 0 <<< 24) ||| bytes.getD (4 * i + 1) 0 <<< 16)
      ||| bytes.getD (4 * i + 2) 0 <<< 8) ||| bytes.getD (4 * i + 3) 0 <<< 0

/-- The 16-word block built by `main` at src/main.cpp lines 161-166. -/
def assembleBlock (junk : Nat → Nat) (bytes : List Nat) : List Nat :=
  (List.range 16).map (assembleWord junk bytes)

/-- The initial hash state of src/main.cpp lines 169-172. -/
def initState : Words8 :=
  { a := 0x6a09e667, b := 0xbb67ae85, c := 0x3c6ef372, d := 0xa54ff53a,
    e := 0x510e527f, f := 0x9b05688c, g := 0x1f83d9ab, h := 0x5be0cd19 }

/-- The four bytes of a 32-bit word, most significant first.  `main` prints
each state word as 8 zero-padded lowercase hex digits (src/main.cpp lines
178-181), which is exactly the lowercase-hex rendering of these bytes. -/
def wordBytes (w : Nat) : List Nat :=
  [w >>> 24 % 256, w >>> 16 % 256, w >>> 8 % 256, w % 256]

/-- The 32-byte digest printed by `main`: the big-endian bytes of the eight
state words in order. -/
def digestBytes (s : Words8) : List Nat :=
  wordBytes s.a ++ wordBytes s.b ++ wordBytes s.c ++ wordBytes s.d ++
    wordBytes s.e ++ wordBytes s.f ++ wordBytes s.g ++ wordBytes s.h

/-- The hashing path of `main` (src/main.cpp lines 137-184) on an input of
`input` bytes, with `junk` the indeterminate initial contents of the
uninitialized `block` array: inputs longer than 64 bytes are rejected
(lines 143-146, `none`); otherwise the input is padded, assembled into one
16-word block, run through `sha256_transform` from the standard initial
state, and the final state is serialized as the 32-byte digest. -/
def mainHash (junk : Nat → Nat) (input : List Nat) : Option (List Nat) :=
  if 64 < input.length then none
  else some (digestBytes (sha256_transform initState (assembleBlock junk (padBytes input))))

/-- Big-endian decoding of a byte list (the reading of the final 8 bytes of a
padded message prescribed by the spec's padding round-trip property). -/
def beDecode (bytes : List Nat) : Nat := bytes.foldl (fun acc b => acc * 256 + b) 0

/-- Right rotation of a 32-bit word `x` by `n` (for `0 < n ≤ 32`): the low `n`
bits of `x` move to the top, the rest shift down.  Written arithmetically;
this is the `rotr` of FIPS 180-4 that the spec's round-function formulas
refer to. -/
def rotr32 (x n : Nat) : Nat := x / 2 ^ n + x % 2 ^ n * 2 ^ (32 - n)

/-- `Σ0` as the spec writes it: `rotr(x,2) ⊕ rotr(x,13) ⊕ rotr(x,22)`. -/
def spec_Sigma0 (x : Nat) : Nat := rotr32 x 2 ^^^ rotr32 x 13 ^^^ rotr32 x 22

/-- `Σ1` as the spec writes it: `rotr(x,6) ⊕ rotr(x,11) ⊕ rotr(x,25)`. -/
def spec_Sigma1 (x : Nat) : Nat := rotr32 x 6 ^^^ rotr32 x 11 ^^^ rotr32 x 25

/-- `σ0` as the spec writes it: `rotr(x,7) ⊕ rotr(x,18) ⊕ shr(x,3)`. -/
def spec_sigma0 (x : Nat) : Nat := rotr32 x 7 ^^^ rotr32 x 18 ^^^ x >>> 3

/-- `σ1` as the spec writes it: `rotr(x,17) ⊕ rotr(x,19) ⊕ shr(x,10)`. -/
def spec_sigma1 (x : Nat) : Nat := rotr32 x 17 ^^^ rotr32 x 19 ^^^ x >>> 10

/-- `Ch` as the spec writes it: `(x AND y) XOR (NOT x AND z)`, with `NOT` the
32-bit complement (XOR with the all-ones mask). -/
def spec_Ch (x y z : Nat) : Nat := (x &&& y) ^^^ ((x ^^^ 0xffffffff) &&& z)

/-- `Maj` as the spec writes it: `(x AND y) XOR (x AND z) XOR (y AND z)`. -/
def spec_Maj (x y z : Nat) : Nat := (x &&& y) ^^^ (x &&& z) ^^^ (y &&& z)

/-- One compression round as the spec writes it:
`T1 = (h + Σ1(e) + Ch(e,f,g) + K[t] + W[t]) mod 2^32`,
`T2 = (Σ0(a) + Maj(a,b,c)) mod 2^32`, then the shift
`h←g, g←f, f←e, e←(d+T1) mod 2^32, d←c, c←b, b←a, a←(T1+T2) mod 2^32`. -/
def spec_roundStep (k w : Nat) (v : Words8) : Words8 :=
  let T1 := (v.h + spec_Sigma1 v.e + spec_Ch v.e v.f v.g + k + w) % 2 ^ 32
  let T2 := (spec_Sigma0 v.a + spec_Maj v.a v.b v.c) % 2 ^ 32
  { a := (T1 + T2) % 2 ^ 32, b := v.a, c := v.b, d := v.c,
    e := (v.d + T1) % 2 ^ 32, f := v.e, g := v.f, h := v.g }

/-- The 64 compression rounds as the spec writes them. -/
def spec_compress (Wf : Nat → Nat) (v : Words8) : Words8 :=
  (List.range 64).foldl (fun v t => spec_roundStep (K.getD t 0) (Wf t) v) v

/-- The spec's final step: after round 63 each working variable is added
(mod `2^32`) into the corresponding state word, never overwriting it. -/
def spec_accumulate (s v : Words8) : Words8 :=
  { a := (s.a + v.a) % 2 ^ 32, b := (s.b + v.b) % 2 ^ 32, c := (s.c + v.c) % 2 ^ 32,
    d := (s.d + v.d) % 2 ^ 32, e := (s.e + v.e) % 2 ^ 32, f := (s.f + v.f) % 2 ^ 32,
    g := (s.g + v.g) % 2 ^ 32, h := (s.h + v.h) % 2 ^ 32 }

/-- One block's compression exactly as §4.4 of the spec describes it. -/
def spec_transform (Wf : Nat → Nat) (state : Words8) : Words8 :=
  spec_accumulate state (spec_compress Wf state)

/-- All eight working variables / state words are 32-bit values. -/
def bounded8 (v : Words8) : Prop :=
  v.a < 2 ^ 32 ∧ v.b < 2 ^ 32 ∧ v.c < 2 ^ 32 ∧ v.d < 2 ^ 32 ∧
    v.e < 2 ^ 32 ∧ v.f < 2 ^ 32 ∧ v.g < 2 ^ 32 ∧ v.h < 2 ^ 32

/-- The big-endian word assembly the spec prescribes for the Block Segmenter:
`word i = (byte[4i] << 24) + (byte[4i+1] << 16) + (byte[4i+2] << 8) + byte[4i+3]`. -/
def beWord (bytes : List Nat) (i : Nat) : Nat :=
  bytes.getD (4 * i) 0 <<< 24 + bytes.getD (4 * i + 1) 0 <<< 16
    + bytes.getD (4 * i + 2) 0 <<< 8 + bytes.getD (4 * i + 3) 0

/-- A possible indeterminate content of the uninitialized `block` array in
which every word happens to start at zero (the only content under which the
assembled words are the pure big-endian assembly of the bytes). -/
def zeroJunk : Nat → Nat := fun _ => 0

/-- A possible indeterminate content of the uninitialized `block` array in
which every word starts at the all-ones 32-bit value. -/
def onesJunk : Nat → Nat := fun _ => 0xffffffff

/-!  Helper lemmas relating the code's bit operations to the mathematical
32-bit right rotation. -/

theorem ROTR_eq_rotr32 (x n : Nat) (hx : x < 2 ^ 32) (hn : n ≤ 32) :
    ROTR x n = rotr32 x n := by
  have hsplit : 2 ^ n * 2 ^ (32 - n) = 2 ^ 32 := by
    rw [← pow_add]
    congr 1
    omega
  have hq : x / 2 ^ n < 2 ^ (32 - n) := by
    apply Nat.div_lt_of_lt_mul
    rw [hsplit]
    exact hx
  have hr : x % 2 ^ n * 2 ^ (32 - n) < 2 ^ 32 := by
    calc x % 2 ^ n * 2 ^ (32 - n) < 2 ^ n * 2 ^ (32 - n) :=
          (Nat.mul_lt_mul_right (Nat.two_pow_pos _)).2 (Nat.mod_lt x (Nat.two_pow_pos n))
      _ = 2 ^ 32 := hsplit
  have hmod : x * 2 ^ (32 - n) % 2 ^ 32 = x % 2 ^ n * 2 ^ (32 - n) := by
    have hdecomp : x * 2 ^ (32 - n) = 2 ^ 32 * (x / 2 ^ n) + x % 2 ^ n * 2 ^ (32 - n) := by
      conv_lhs => rw [← Nat.div_add_mod x (2 ^ n)]
      rw [← hsplit]
      ring
    rw [hdecomp, Nat.mul_add_mod, Nat.mod_eq_of_lt hr]
  unfold ROTR rotr32
  rw [Nat.shiftRight_eq_div_pow, Nat.shiftLeft_eq, hmod]
  calc x / 2 ^ n ||| x % 2 ^ n * 2 ^ (32 - n)
      = 2 ^ (32 - n) * (x % 2 ^ n) ||| x / 2 ^ n := by rw [Nat.lor_comm, Nat.mul_comm]
    _ = 2 ^ (32 - n) * (x % 2 ^ n) + x / 2 ^ n := (Nat.mul_add_lt_is_or hq _).symm
    _ = x / 2 ^ n + x % 2 ^ n * 2 ^ (32 - n) := by rw [Nat.add_comm, Nat.mul_comm]

theorem Sigma0_eq_spec (x : Nat) (hx : x < 2 ^ 32) : Sigma0 x = spec_Sigma0 x := by
  unfold Sigma0 spec_Sigma0
  rw [ROTR_eq_rotr32 x 2 hx (by omega), ROTR_eq_rotr32 x 13 hx (by omega),
    ROTR_eq_rotr32 x 22 hx (by omega)]

theorem Sigma1_eq_spec (x : Nat) (hx : x < 2 ^ 32) : Sigma1 x = spec_Sigma1 x := by
  unfold Sigma1 spec_Sigma1
  rw [ROTR_eq_rotr32 x 6 hx (by omega), ROTR_eq_rotr32 x 11 hx (by omega),
    ROTR_eq_rotr32 x 25 hx (by omega)]

theorem sigma0_eq_spec (x : Nat) (hx : x < 2 ^ 32) : sigma0 x = spec_sigma0 x := by
  unfold sigma0 spec_sigma0 SHR
  rw [ROTR_eq_rotr32 x 7 hx (by omega), ROTR_eq_rotr32 x 18 hx (by omega)]

theorem sigma1_eq_spec (x : Nat) (hx : x < 2 ^ 32) : sigma1 x = spec_sigma1 x := by
  unfold sigma1 spec_sigma1 SHR
  rw [ROTR_eq_rotr32 x 17 hx (by omega), ROTR_eq_rotr32 x 19 hx (by omega)]

/-!  Lemmas about the schedule-extension loop. -/

theorem nextW_fold (W : List Nat) :
    nextW W = (sigma1 (W.getD (W.length - 2) 0) + W.getD (W.length - 7) 0
      + sigma0 (W.getD (W.length - 15) 0) + W.getD (W.length - 16) 0) % 2 ^ 32 := by
  unfold nextW
  simp only [Nat.mod_add_mod]

theorem extendW_succ (W : List Nat) (n : Nat) :
    extendW W (n + 1) = extendW (W ++ [nextW W]) n := rfl

theorem length_extendW (n : Nat) : ∀ W : List Nat, (extendW W n).length = W.length + n := by
  induction n with
  | zero => intro W; rfl
  | succ n ih =>
    intro W
    rw [extendW_succ, ih]
    simp
    omega

theorem getD_extendW_of_lt (n : Nat) :
    ∀ (W : List Nat) (t : Nat), t < W.length → (extendW W n).getD t 0 = W.getD t 0 := by
  induction n with
  | zero => intro W t _; rfl
  | succ n ih =>
    intro W t ht
    have h1 : t < (W ++ [nextW W]).length := by simp; omega
    rw [extendW_succ, ih _ t h1]
    simp only [List.getD_eq_getElem?_getD, List.getElem?_append_left ht]

theorem extendW_recurrence (n : Nat) :
    ∀ W : List Nat, 16 ≤ W.length → ∀ t, W.length ≤ t → t < W.length + n →
    (extendW W n).getD t 0 =
      (sigma1 ((extendW W n).getD (t - 2) 0) + (extendW W n).getD (t - 7) 0
        + sigma0 ((extendW W n).getD (t - 15) 0) + (extendW W n).getD (t - 16) 0) % 2 ^ 32 := by
  induction n with
  | zero => intro W _ t ht1 ht2; omega
  | succ n ih =>
    intro W h16 t ht1 ht2
    rw [extendW_succ]
    have hlen' : (W ++ [nextW W]).length = W.length + 1 := by simp
    rcases Nat.eq_or_lt_of_le ht1 with heq | hlt
    · -- the appended word itself
      have hLHS : (extendW (W ++ [nextW W]) n).getD t 0 = nextW W := by
        rw [getD_extendW_of_lt n _ t (by omega)]
        subst heq
        simp only [List.getD_eq_getElem?_getD, List.getElem?_concat_length, Option.getD_some]
      have idx : ∀ k, 0 < k → k ≤ 16 →
          (extendW (W ++ [nextW W]) n).getD (t - k) 0 = W.getD (t - k) 0 := by
        intro k hk1 hk2
        have hk3 : t - k < W.length := by omega
        rw [getD_extendW_of_lt n _ _ (by omega)]
        simp only [List.getD_eq_getElem?_getD, List.getElem?_append_left hk3]
      rw [hLHS, idx 2 (by omega) (by omega), idx 7 (by omega) (by omega),
        idx 15 (by omega) (by omega), idx 16 (by omega) (by omega), nextW_fold]
      subst heq
      rfl
    · exact ih (W ++ [nextW W]) (by omega) t (by omega) (by omega)

theorem mem_extendW_lt (n : Nat) :
    ∀ W : List Nat, (∀ x ∈ W, x < 2 ^ 32) → ∀ x ∈ extendW W n, x < 2 ^ 32 := by
  induction n with
  | zero => intro W hW; exact hW
  | succ n ih =>
    intro W hW
    rw [extendW_succ]
    apply ih
    intro x hx
    rcases List.mem_append.1 hx with h | h
    · exact hW x h
    · have hx2 : x = nextW W := by simpa using h
      subst hx2
      unfold nextW
      exact Nat.mod_lt _ (Nat.two_pow_pos 32)

theorem getD_lt_of_all_lt (l : List Nat) (hl : ∀ x ∈ l, x < 2 ^ 32) (t : Nat)
    (ht : t < l.length) : l.getD t 0 < 2 ^ 32 := by
  simp only [List.getD_eq_getElem?_getD, List.getElem?_eq_getElem ht, Option.getD_some]
  exact hl _ (List.getElem_mem ht)

/-!  Lemmas about the compression rounds. -/

theorem Ch_eq_spec (x y z : Nat) : Ch x y z = spec_Ch x y z := rfl

theorem Maj_eq_spec (x y z : Nat) : Maj x y z = spec_Maj x y z := rfl

theorem roundStep_eq_spec (v : Words8) (k w : Nat) (hv : bounded8 v) :
    roundStep v k w = spec_roundStep k w v := by
  obtain ⟨ha, _, _, _, he, _, _, _⟩ := hv
  unfold roundStep spec_roundStep
  rw [Sigma1_eq_spec v.e he, Sigma0_eq_spec v.a ha, Ch_eq_spec, Maj_eq_spec]
  simp only [Nat.mod_add_mod]

theorem roundStep_bounded (v : Words8) (k w : Nat) (hv : bounded8 v) :
    bounded8 (roundStep v k w) := by
  obtain ⟨ha, hb, hc, hd, he, hf, hg, hh⟩ := hv
  unfold roundStep bounded8
  exact ⟨Nat.mod_lt _ (Nat.two_pow_pos 32), ha, hb, hc,
    Nat.mod_lt _ (Nat.two_pow_pos 32), he, hf, hg⟩

theorem foldl_rounds_eq_spec (Wf : Nat → Nat) :
    ∀ (l : List Nat) (v : Words8), bounded8 v →
    l.foldl (fun v t => roundStep v (K.getD t 0) (Wf t)) v =
      l.foldl (fun v t => spec_roundStep (K.getD t 0) (Wf t) v) v := by
  intro l
  induction l with
  | nil => intro v _; rfl
  | cons t ts ih =>
    intro v hv
    simp only [List.foldl_cons]
    rw [← roundStep_eq_spec v (K.getD t 0) (Wf t) hv]
    exact ih _ (roundStep_bounded v _ _ hv)

theorem compress_eq_spec (Wf : Nat → Nat) (v : Words8) (hv : bounded8 v) :
    compress Wf v = spec_compress Wf v :=
  foldl_rounds_eq_spec Wf (List.range 64) v hv

theorem accumulate_eq_spec (s v : Words8) : accumulate s v = spec_accumulate s v := rfl

/-!  The claims. -/

/-- Claim C1 (code bug): for the 3-byte message "abc" (bytes 0x61 0x62 0x63),
the program's hash path — with the uninitialized block words read as zero —
returns the digest 5b2beac7edfc3d105f66435f0ddf6c8ba1a07ff784229bf07ac92a88eb4756ec,
not the FIPS 180-4 test vector ba7816bf8f01cfea414140de5dae2223b00361a396177a9cb410ff61f20015ad
that the spec lists: the code never appends the 64-bit bit-length to the
padding, so the compressed block differs from the standard one. -/
theorem C1_abc_digest_wrong :
    mainHash zeroJunk [0x61, 0x62, 0x63] =
      some [0x5b, 0x2b, 0xea, 0xc7, 0xed, 0xfc, 0x3d, 0x10, 0x5f, 0x66, 0x43, 0x5f,
        0x0d, 0xdf, 0x6c, 0x8b, 0xa1, 0xa0, 0x7f, 0xf7, 0x84, 0x22, 0x9b, 0xf0,
        0x7a, 0xc9, 0x2a, 0x88, 0xeb, 0x47, 0x56, 0xec] ∧
    mainHash zeroJunk [0x61, 0x62, 0x63] ≠
      some [0xba, 0x78, 0x16, 0xbf, 0x8f, 0x01, 0xcf, 0xea, 0x41, 0x41, 0x40, 0xde,
        0x5d, 0xae, 0x22, 0x23, 0xb0, 0x03, 0x61, 0xa3, 0x96, 0x17, 0x7a, 0x9c,
        0xb4, 0x10, 0xff, 0x61, 0xf2, 0x00, 0x15, 0xad] :=
  ⟨by decide, by decide⟩

/-- Claim C2 (code bug): for the 3-byte message "abc" the padded form built by
`main` is 64 bytes (indeed a multiple of 64), but its final 8 bytes decode as
the big-endian integer 0, not the original bit length 8·3 = 24: the code
omits the length-append step of padding. -/
theorem C2_length_field_missing :
    (padBytes [0x61, 0x62, 0x63]).length % 64 = 0 ∧
    beDecode ((padBytes [0x61, 0x62, 0x63]).drop ((padBytes [0x61, 0x62, 0x63]).length - 8)) = 0 ∧
    8 * 3 ≠ (0 : Nat) :=
  ⟨by decide, by decide, by decide⟩

/-- Claim C3 (code bug): a 65-byte message — bit length 520, comfortably
representable in 64 bits — is rejected by the program (`main` returns the
error path) instead of being hashed to a 32-byte digest. -/
theorem C3_65_byte_input_rejected :
    mainHash zeroJunk (List.replicate 65 0) = none ∧ 8 * 65 < 2 ^ 64 :=
  ⟨by decide, by decide⟩

/-- Claim C4 (code bug): a message of exactly 56 bytes is padded by the code
into a single 64-byte block; no second block is ever emitted, contradicting
the required padded length of 128 bytes. -/
theorem C4_56_byte_padding_wrong :
    (padBytes (List.replicate 56 0x61)).length = 64 ∧ (64 : Nat) ≠ 128 :=
  ⟨by decide, by decide⟩

/-- Claim C5 (confirmed): for every initial 8-word state of 32-bit words and
every schedule, the code's per-block compression — the 64-round loop followed
by the accumulation — equals the spec's rounds: for each round t,
T1 = (h + Σ1(e) + Ch(e,f,g) + K[t] + W[t]) mod 2^32,
T2 = (Σ0(a) + Maj(a,b,c)) mod 2^32, with the shift h←g, g←f, f←e,
e←(d+T1) mod 2^32, d←c, c←b, b←a, a←(T1+T2) mod 2^32, and after round 63 each
working variable is added (mod 2^32) into the corresponding state word. -/
theorem C5_compression_matches_spec (state : Words8) (Wf : Nat → Nat)
    (hs : bounded8 state) :
    transformWithSchedule Wf state = spec_transform Wf state := by
  unfold transformWithSchedule spec_transform
  rw [compress_eq_spec Wf state hs, accumulate_eq_spec]

/-- Witness for claim C5 at the standard initial state and the all-zero
schedule. -/
theorem C5_compression_matches_spec_witness :
    bounded8 initState ∧
      transformWithSchedule (fun _ => 0) initState = spec_transform (fun _ => 0) initState :=
  ⟨by unfold bounded8; decide,
    C5_compression_matches_spec initState (fun _ => 0) (by unfold bounded8; decide)⟩

/-- Claim C6 (confirmed): for every 16-word block of 32-bit words, the code's
64-word message schedule keeps words 0..15 equal to the block's words, and
for t = 16..63 satisfies
W[t] = (σ1(W[t-2]) + W[t-7] + σ0(W[t-15]) + W[t-16]) mod 2^32 with
σ0(x) = rotr(x,7) ⊕ rotr(x,18) ⊕ shr(x,3) and
σ1(x) = rotr(x,17) ⊕ rotr(x,19) ⊕ shr(x,10), all additions wrapping. -/
theorem C6_schedule_matches_spec (block : List Nat) (hlen : block.length = 16)
    (hbound : ∀ x ∈ block, x < 2 ^ 32) :
    (∀ t, t < 16 → (messageSchedule block).getD t 0 = block.getD t 0) ∧
    (∀ t, 16 ≤ t → t < 64 →
      (messageSchedule block).getD t 0 =
        (spec_sigma1 ((messageSchedule block).getD (t - 2) 0)
          + (messageSchedule block).getD (t - 7) 0
          + spec_sigma0 ((messageSchedule block).getD (t - 15) 0)
          + (messageSchedule block).getD (t - 16) 0) % 2 ^ 32) := by
  unfold messageSchedule
  have hboundS := mem_extendW_lt 48 block hbound
  have hlenS : (extendW block 48).length = 64 := by rw [length_extendW]; omega
  constructor
  · intro t ht
    exact getD_extendW_of_lt 48 block t (by omega)
  · intro t h16 h64
    rw [extendW_recurrence 48 block (by omega) t (by omega) (by omega),
      sigma1_eq_spec _ (getD_lt_of_all_lt _ hboundS (t - 2) (by omega)),
      sigma0_eq_spec _ (getD_lt_of_all_lt _ hboundS (t - 15) (by omega))]

/-- Witness for claim C6 at the all-zero 16-word block. -/
theorem C6_schedule_matches_spec_witness :
    (List.replicate 16 (0 : Nat)).length = 16 ∧
    (∀ x ∈ List.replicate 16 (0 : Nat), x < 2 ^ 32) ∧
    ((∀ t, t < 16 →
        (messageSchedule (List.replicate 16 (0 : Nat))).getD t 0 =
          (List.replicate 16 (0 : Nat)).getD t 0) ∧
      (∀ t, 16 ≤ t → t < 64 →
        (messageSchedule (List.replicate 16 (0 : Nat))).getD t 0 =
          (spec_sigma1 ((messageSchedule (List.replicate 16 (0 : Nat))).getD (t - 2) 0)
            + (messageSchedule (List.replicate 16 (0 : Nat))).getD (t - 7) 0
            + spec_sigma0 ((messageSchedule (List.replicate 16 (0 : Nat))).getD (t - 15) 0)
            + (messageSchedule (List.replicate 16 (0 : Nat))).getD (t - 16) 0) % 2 ^ 32)) :=
  ⟨by decide, by decide, C6_schedule_matches_spec _ (by decide) (by decide)⟩

/-- Claim C7 (code bug): `main` declares the 16-word block without an
initializer and ORs the bytes into it, so the assembled word is the
indeterminate initial value ORed with the big-endian assembly.  For the
padded empty message and all-ones initial contents, word 0 is 0xffffffff,
not the big-endian assembly 0x80000000 of bytes 0..3. -/
theorem C7_assembly_reads_uninitialized :
    assembleWord onesJunk (padBytes []) 0 = 0xffffffff ∧
    beWord (padBytes []) 0 = 0x80000000 ∧
    assembleWord onesJunk (padBytes []) 0 ≠ beWord (padBytes []) 0 :=
  ⟨by decide, by decide, by decide⟩

/-- Claim C8 (code bug): the digest depends on the indeterminate contents of
the uninitialized block array, not only on the message bytes: hashing the
empty message with those contents read as all zeros and as all ones yields
two different digests (with zeros it happens to be the genuine SHA-256 of the
empty message, e3b0c44298fc1c149afbf4c8996fb92427ae41e4649b934ca495991b7852b855). -/
theorem C8_digest_depends_on_uninitialized_memory :
    mainHash zeroJunk [] ≠ mainHash onesJunk [] ∧
    mainHash zeroJunk [] =
      some [0xe3, 0xb0, 0xc4, 0x42, 0x98, 0xfc, 0x1c, 0x14, 0x9a, 0xfb, 0xf4, 0xc8,
        0x99, 0x6f, 0xb9, 0x24, 0x27, 0xae, 0x41, 0xe4, 0x64, 0x9b, 0x93, 0x4c,
        0xa4, 0x95, 0x99, 0x1b, 0x78, 0x52, 0xb8, 0x55] :=
  ⟨by decide, by decide⟩

/-- Claim C9 (confirmed): a call to `sha256_transform` leaves the 16 words of
its block argument exactly as they were — the block is taken by `const`
reference and only copied — and the only datum the call changes is the
eight-word state. -/
theorem C9_transform_preserves_block (state : Words8) (block : List Nat) :
    (sha256_transform_mem state block).2 = block ∧
    (sha256_transform_mem state block).1 = sha256_transform state block :=
  ⟨rfl, rfl⟩

/-- Claim C10 (confirmed): every rotation amount with which the program calls
`ROTR` — 2, 13, 22 in `Sigma0`; 6, 11, 25 in `Sigma1`; 7, 18 in `sigma0`;
17, 19 in `sigma1` — lies between 1 and 31, and at each such amount `ROTR`
computes exactly the 32-bit right rotation, so each of the four functions
equals its rotation-based specification. -/
theorem C10_ROTR_well_defined (x : Nat) (hx : x < 2 ^ 32) :
    (∀ n ∈ [2, 6, 7, 11, 13, 17, 18, 19, 22, 25],
      1 ≤ n ∧ n ≤ 31 ∧ ROTR x n = rotr32 x n) ∧
    Sigma0 x = spec_Sigma0 x ∧ Sigma1 x = spec_Sigma1 x ∧
    sigma0 x = spec_sigma0 x ∧ sigma1 x = spec_sigma1 x := by
  refine ⟨?_, Sigma0_eq_spec x hx, Sigma1_eq_spec x hx,
    sigma0_eq_spec x hx, sigma1_eq_spec x hx⟩
  intro n hn
  fin_cases hn <;> exact ⟨by omega, by omega, ROTR_eq_rotr32 x _ hx (by omega)⟩

/-- Witness for claim C10 at the first initial-state word. -/
theorem C10_ROTR_well_defined_witness :
    (0x6a09e667 : Nat) < 2 ^ 32 ∧
      ((∀ n ∈ [2, 6, 7, 11, 13, 17, 18, 19, 22, 25],
          1 ≤ n ∧ n ≤ 31 ∧ ROTR 0x6a09e667 n = rotr32 0x6a09e667 n) ∧
        Sigma0 0x6a09e667 = spec_Sigma0 0x6a09e667 ∧
        Sigma1 0x6a09e667 = spec_Sigma1 0x6a09e667 ∧
        sigma0 0x6a09e667 = spec_sigma0 0x6a09e667 ∧
        sigma1 0x6a09e667 = spec_sigma1 0x6a09e667) :=
  ⟨by decide, C10_ROTR_well_defined 0x6a09e667 (by decide)⟩

end Sha256
